import Mathlib

/-!
Verification of the WebSocket handshake negotiation engine
(abursavich/websocket, a refactor of nhooyr.io/websocket).

Shallow embedding conventions:
  * Go byte strings are `List Nat` (each entry one byte); `bytes` converts an
    ASCII Lean string literal to this form.
  * `http.Header` is an ordered list of (key, value) pairs; `headerValues`
    models `Header.Values` (lookup under the canonical MIME key, insertion
    order preserved), which is how every embedded function reads headers.
  * Fallible Go functions returning `(T, error)` become `Except String T`
    (error messages are abbreviated: the claims never depend on their text).
  * Go standard-library primitives used by the code (crypto/sha1,
    encoding/base64, strconv.Atoi, strings.TrimSpace, path/filepath.Match,
    the host part of net/url.Parse) are embedded from their standard
    byte-level semantics, restricted to the ASCII byte strings this protocol
    carries (Unicode-only behaviour, such as folding of non-ASCII letters,
    is outside the model).
  * Loops whose Go form consumes at least one byte per iteration are
    embedded with an explicit fuel argument initialised above the loop's
    iteration bound; the fuel-exhaustion branch is unreachable.
-/

/-- Go byte strings: a list of byte values. -/
abbrev Str := List Nat

/-- ASCII literal helper: the byte string of an ASCII Lean string. -/
def bytes (s : String) : Str := s.data.map Char.toNat

/-! ## internal/httpheaders: RFC 2616 byte classes (httpheaders_test.go source part) -/

/-- LWS bytes: SP, HT, CR, LF (source `isSpace`). -/
def isSpace (b : Nat) : Bool := b == 32 || b == 9 || b == 13 || b == 10

/-- CHAR: any US-ASCII octet 0-127 (source `isChar`). -/
def isChar (b : Nat) : Bool := b ≤ 127

/-- CTL: octets 0-31 and DEL 127 (source `isControl`). -/
def isControl (b : Nat) : Bool := b ≤ 31 || b == 127

/-- TEXT: any octet except CTLs, but including LWS (source `isText`). -/
def isText (b : Nat) : Bool := !isControl b || isSpace b

/-- RFC 2616 separators (source `isSeparator`). -/
def isSeparatorByte (b : Nat) : Bool :=
  b == 40 || b == 41 || b == 60 || b == 62 || b == 64 ||
  b == 44 || b == 59 || b == 58 || b == 92 || b == 34 ||
  b == 47 || b == 91 || b == 93 || b == 63 || b == 61 ||
  b == 123 || b == 125 || b == 32 || b == 9

/-- token byte: CHAR except CTLs or separators (source `isToken` on bytes). -/
def isTokenByte (b : Nat) : Bool := isChar b && !isControl b && !isSeparatorByte b

/-- ASCII lower-casing of one byte (model of Go case mapping on ASCII). -/
def toLowerByte (b : Nat) : Nat := if 65 ≤ b ∧ b ≤ 90 then b + 32 else b

/-- ASCII upper-casing of one byte. -/
def toUpperByte (b : Nat) : Nat := if 97 ≤ b ∧ b ≤ 122 then b - 32 else b

/-- strings.ToLower restricted to ASCII bytes. -/
def lowerStr (s : Str) : Str := s.map toLowerByte

/-- strings.EqualFold restricted to ASCII bytes (all strings compared by the
embedded code are ASCII tokens). -/
def EqualFold (a b : Str) : Bool := lowerStr a == lowerStr b

/-- trimLeftSpace (source): drops leading LWS bytes. -/
def trimLeftSpace (s : Str) : Str := s.dropWhile isSpace

/-- trimLeftCommaOrSpace (source): drops leading commas and LWS bytes. -/
def trimLeftCommaOrSpace (s : Str) : Str := s.dropWhile (fun b => b == 44 || isSpace b)

/-- Byte is in Go strings.TrimSpace's ASCII space set:
HT, LF, VT, FF, CR, SP. -/
def isGoSpace (b : Nat) : Bool := b == 9 || b == 10 || b == 11 || b == 12 || b == 13 || b == 32

/-- strings.TrimSpace on ASCII byte strings: removes leading and trailing
white space. -/
def trimSpace (s : Str) : Str :=
  ((s.dropWhile isGoSpace).reverse.dropWhile isGoSpace).reverse

/-! ## SHA-1 (crypto/sha1) over byte strings, with 32-bit words as Nat mod 2^32 -/

/-- The modulus of 32-bit words, 2^32. -/
def mask32 : Nat := 4294967296

/-- Rotate a 32-bit word left by n bits. -/
def rotl32 (n x : Nat) : Nat := (((x <<< n) % mask32) ||| (x >>> (32 - n)))

/-- SHA-1 round function for round t. -/
def sha1F (t b c d : Nat) : Nat :=
  if t < 20 then (b &&& c) ||| (((mask32 - 1) ^^^ b) &&& d)
  else if t < 40 then b ^^^ c ^^^ d
  else if t < 60 then (b &&& c) ||| (b &&& d) ||| (c &&& d)
  else b ^^^ c ^^^ d

/-- SHA-1 round constant for round t. -/
def sha1K (t : Nat) : Nat :=
  if t < 20 then 1518500249
  else if t < 40 then 1859775393
  else if t < 60 then 2400959708
  else 3395469782

/-- Big-endian 32-bit word from four bytes. -/
def be32 (a b c d : Nat) : Nat := ((a * 256 + b) * 256 + c) * 256 + d

/-- Break a byte string into big-endian 32-bit words. -/
def toWords : Str → List Nat
  | a :: b :: c :: d :: rest => be32 a b c d :: toWords rest
  | _ => []

/-- Big-endian 64-bit byte encoding of a number. -/
def be64 (n : Nat) : Str :=
  [n >>> 56 % 256, n >>> 48 % 256, n >>> 40 % 256, n >>> 32 % 256,
   n >>> 24 % 256, n >>> 16 % 256, n >>> 8 % 256, n % 256]

/-- SHA-1 message padding: 0x80, zeros to 56 mod 64, then the bit length. -/
def sha1Pad (msg : Str) : Str :=
  let len := msg.length
  let zeros := (120 - ((len + 1) % 64)) % 64
  msg ++ 128 :: List.replicate zeros 0 ++ be64 (8 * len)

/-- Message-schedule extension: push k more words onto the first 16. -/
def sha1Extend : Nat → Array Nat → Array Nat
  | 0, ws => ws
  | k + 1, ws =>
    let i := ws.size
    let w := rotl32 1 ((ws.getD (i - 3) 0) ^^^ (ws.getD (i - 8) 0) ^^^
                      (ws.getD (i - 14) 0) ^^^ (ws.getD (i - 16) 0))
    sha1Extend k (ws.push w)

/-- One SHA-1 round: update the five-word state with word t of the schedule. -/
def sha1Round (ws : Array Nat) (st : Nat × Nat × Nat × Nat × Nat) (t : Nat) :
    Nat × Nat × Nat × Nat × Nat :=
  let (a, b, c, d, e) := st
  let temp := (rotl32 5 a + sha1F t b c d + e + ws.getD t 0 + sha1K t) % mask32
  (temp, a, rotl32 30 b, c, d)

/-- Compress one 16-word block into the running hash state. -/
def sha1Compress (h : Nat × Nat × Nat × Nat × Nat) (block : List Nat) :
    Nat × Nat × Nat × Nat × Nat :=
  let ws := sha1Extend 64 (Array.mk block)
  let (a, b, c, d, e) := (List.range 80).foldl (sha1Round ws) h
  let (h0, h1, h2, h3, h4) := h
  ((h0 + a) % mask32, (h1 + b) % mask32, (h2 + c) % mask32, (h3 + d) % mask32,
   (h4 + e) % mask32)

/-- SHA-1 initial state. -/
def sha1Init : Nat × Nat × Nat × Nat × Nat :=
  (1732584193, 4023233417, 2562383102, 271733878, 3285377520)

/-- Big-endian bytes of a 32-bit word. -/
def wordBytes (w : Nat) : Str := [w >>> 24 % 256, w >>> 16 % 256, w >>> 8 % 256, w % 256]

/-- SHA-1 digest (20 bytes) of a byte string. -/
def sha1 (msg : Str) : Str :=
  let ws := toWords (sha1Pad msg)
  let blocks := ws.length / 16
  let (a, b, c, d, e) :=
    (List.range blocks).foldl (fun h i => sha1Compress h ((ws.drop (16 * i)).take 16)) sha1Init
  wordBytes a ++ wordBytes b ++ wordBytes c ++ wordBytes d ++ wordBytes e

/-! ## base64 (encoding/base64 StdEncoding) -/

/-- The standard base64 alphabet as bytes. -/
def b64Alphabet : Str := bytes "ABCDEFGHIJKLMNOPQRSTUVWXYZabcdefghijklmnopqrstuvwxyz0123456789+/"

/-- Byte of the base64 alphabet at index n. -/
def b64Char (n : Nat) : Nat := b64Alphabet.getD n 0

/-- base64.StdEncoding.EncodeToString on byte strings. -/
def base64Encode : Str → Str
  | [] => []
  | [a] => [b64Char (a >>> 2), b64Char ((a % 4) <<< 4), 61, 61]
  | [a, b] => [b64Char (a >>> 2), b64Char (((a % 4) <<< 4) ||| (b >>> 4)),
               b64Char ((b % 16) <<< 2), 61]
  | a :: b :: c :: rest =>
    b64Char (a >>> 2) :: b64Char (((a % 4) <<< 4) ||| (b >>> 4)) ::
    b64Char (((b % 16) <<< 2) ||| (c >>> 6)) :: b64Char (c % 64) ::
    base64Encode rest

/-- Value of one base64 alphabet byte, none for any other byte
(including the padding byte). -/
def b64Value (c : Nat) : Option Nat :=
  if 65 ≤ c ∧ c ≤ 90 then some (c - 65)
  else if 97 ≤ c ∧ c ≤ 122 then some (c - 97 + 26)
  else if 48 ≤ c ∧ c ≤ 57 then some (c - 48 + 52)
  else if c == 43 then some 62
  else if c == 47 then some 63
  else none

/-- Decode base64 quantums: the final quantum may carry padding, padding
anywhere else (or a leftover partial quantum) is an error, as in Go's
streaming StdEncoding decoder read to the end by io.ReadAll. -/
def base64DecodeAux : Str → Option Str
  | [] => some []
  | [a, b, 61, 61] => do
    let x ← b64Value a
    let y ← b64Value b
    some [(x <<< 2) ||| (y >>> 4)]
  | [a, b, c, 61] => do
    let x ← b64Value a
    let y ← b64Value b
    let z ← b64Value c
    some [(x <<< 2) ||| (y >>> 4), ((y % 16) <<< 4) ||| (z >>> 2)]
  | a :: b :: c :: d :: rest => do
    let x ← b64Value a
    let y ← b64Value b
    let z ← b64Value c
    let w ← b64Value d
    let tail ← base64DecodeAux rest
    some (((x <<< 2) ||| (y >>> 4)) :: (((y % 16) <<< 4) ||| (z >>> 2)) ::
          (((z % 4) <<< 6) ||| w) :: tail)
  | _ => none

/-- Model of reading Go's base64.NewDecoder(StdEncoding, ...) to the end:
CR and LF are ignored, everything else must be whole quantums. -/
def base64Decode (s : Str) : Option Str :=
  base64DecodeAux (s.filter (fun c => !(c == 13 || c == 10)))

/-! ## Header model (net/http Header via net/textproto canonical keys) -/

/-- Canonical-case transform: first byte and each byte after a hyphen
upper-cased, the rest lower-cased. -/
def canonicalKeyAux : Bool → Str → Str
  | _, [] => []
  | up, c :: rest =>
    (if up then toUpperByte c else toLowerByte c) :: canonicalKeyAux (c == 45) rest

/-- textproto.CanonicalMIMEHeaderKey: canonical case when every byte is a
valid header-field byte (the token set), otherwise the key unchanged. -/
def canonicalKey (s : Str) : Str :=
  if s.all isTokenByte then canonicalKeyAux true s else s

/-- http.Header, modelled as the ordered (key, value) pairs added to it. -/
abbrev Header := List (Str × Str)

/-- Header.Values: all values whose key canonicalizes like the given key,
in insertion order. -/
def headerValues (h : Header) (key : Str) : List Str :=
  h.filterMap (fun kv => if canonicalKey kv.1 == canonicalKey key then some kv.2 else none)

/-- Header.Get: the first value for the key, or the empty string. -/
def headerGet (h : Header) (key : Str) : Str := (headerValues h key).headD []

/-! ## internal/httpheaders (httpheaders_test.go source part) -/

/-- IsToken: non-empty and all token bytes. -/
def IsToken (s : Str) : Bool := !s.isEmpty && s.all isTokenByte

/-- ContainsToken: the case-insensitive token is in the list. -/
def ContainsToken (tokens : List Str) (token : Str) : Bool :=
  tokens.any (fun v => EqualFold v token)

/-- ReadToken: consume a maximal non-empty run of token bytes, then trim
leading white space from the rest. -/
def ReadToken (s : Str) : Except String (Str × Str) :=
  if s.isEmpty then .error "expecting token"
  else
    let tok := s.takeWhile isTokenByte
    if tok.isEmpty then .error "expecting token: found other byte"
    else .ok (tok, trimLeftSpace (s.dropWhile isTokenByte))

/-- ReadQuotedString scan after the opening quote: 92 starts an escape whose
byte must be a CHAR and is taken verbatim, 34 closes the string (trimming
the white space that follows), anything else is taken verbatim; running out
of input is an error.  This fuses the source's scan with its `unescape`
second pass. -/
def readQSAux : Str → Except String (Str × Str)
  | [] => .error "expecting closing quote"
  | b :: rest =>
    if b == 92 then
      match rest with
      | [] => .error "expecting escaped char"
      | c :: rest' =>
        if isChar c then (readQSAux rest').map (fun p => (c :: p.1, p.2))
        else .error "expecting escaped char: found other byte"
    else if b == 34 then .ok ([], trimLeftSpace rest)
    else (readQSAux rest).map (fun p => (b :: p.1, p.2))

/-- ReadQuotedString: requires a leading quote, unescapes, returns the rest
with leading white space removed. -/
def ReadQuotedString (s : Str) : Except String (Str × Str) :=
  match s with
  | [] => .error "expecting quoted string"
  | b :: rest =>
    if b == 34 then readQSAux rest else .error "expecting opening quote"

/-- ReadString: quoted-string reading when the input starts with a quote,
else token reading. -/
def ReadString (s : Str) : Except String (Str × Str) :=
  match s with
  | [] => .error "expecting token or quoted string"
  | b :: _ => if b == 34 then ReadQuotedString s else ReadToken s

/-- True when the byte must be escaped by QuoteString: non-TEXT, the quote,
or the backslash. -/
def quoteEscapes (b : Nat) : Bool := !isText b || b == 34 || b == 92

/-- Body of QuoteString: each byte, escaped where required. -/
def quoteBody : Str → Str
  | [] => []
  | b :: rest => (if quoteEscapes b then [92, b] else [b]) ++ quoteBody rest

/-- QuoteString: the quoted, escaped form of a string. -/
def QuoteString (s : Str) : Str := 34 :: (quoteBody s ++ [34])

/-- FormatString: a valid token unchanged, anything else quoted. -/
def FormatString (s : Str) : Str := if !IsToken s then QuoteString s else s

/-- ParseTokenList loop: read a token, stop at the end, demand a comma
before any next element, skip empty elements.  Fuel decreases every
iteration; each iteration consumes at least one byte, so the initial fuel
`value.length + 1` never runs out. -/
def parseTokenListAux : Nat → Str → Except String (List Str)
  | 0, _ => .error "out of fuel"
  | fuel + 1, rest =>
    match ReadToken rest with
    | .error e => .error e
    | .ok (token, rest') =>
      if rest' == [] then .ok [token]
      else if rest'.headD 0 ≠ 44 then .error "expecting comma"
      else
        let rest2 := trimLeftCommaOrSpace rest'
        if rest2 == [] then .ok [token]
        else (parseTokenListAux fuel rest2).map (token :: ·)

/-- ParseTokenList: the value as a non-empty comma-separated token list. -/
def ParseTokenList (value : Str) : Except String (List Str) :=
  parseTokenListAux (value.length + 1) (trimLeftCommaOrSpace value)

/-- ParseTokenLists: the values as token lists, concatenated in order;
an empty value slice yields the empty list. -/
def ParseTokenLists (values : List Str) : Except String (List Str) :=
  match values with
  | [] => .ok []
  | v :: rest =>
    match ParseTokenList v with
    | .error e => .error e
    | .ok first =>
      rest.foldlM (fun acc v => (ParseTokenList v).map (acc ++ ·)) first

/-- VerifyIsToken: all values parsed as one token list must be exactly one
token equal case-insensitively to the wanted token. -/
def VerifyIsToken (header : Header) (key token : Str) : Except String Unit :=
  match headerValues header key with
  | [] => .error "missing header"
  | values =>
    match ParseTokenLists values with
    | .error _ => .error "invalid header"
    | .ok tokens =>
      if tokens.length == 1 && EqualFold (tokens.headD []) token then .ok ()
      else .error "header is not token"

/-- VerifyContainsToken loop over the values after the first: a value that
parses and contains the token succeeds; parse errors are recorded (first
one wins) and skipped; exhaustion is an error. -/
def vctLoop (token : Str) : List Str → Option String → Except String Unit
  | [], some e => .error e
  | [], none => .error "header does not contain token"
  | v :: rest, firstErr =>
    match ParseTokenList v with
    | .error e => vctLoop token rest (firstErr.orElse (fun _ => some e))
    | .ok more =>
      if ContainsToken more token then .ok () else vctLoop token rest firstErr

/-- VerifyContainsToken: some value of the header must parse to a token
list containing the case-insensitive token. -/
def VerifyContainsToken (header : Header) (key token : Str) : Except String Unit :=
  match headerValues header key with
  | [] => .error "missing header"
  | v :: rest =>
    match ParseTokenList v with
    | .error e => vctLoop token rest (some e)
    | .ok tokens =>
      if ContainsToken tokens token then .ok () else vctLoop token rest none

/-! ## internal/wsheaders (wsheaders.go, challenge.go, protocols, extensions) -/

/-- Canonical websocket challenge header key. -/
def challengeKey : Str := bytes "Sec-WebSocket-Key"

/-- Canonical websocket accept header key. -/
def acceptHdrKey : Str := bytes "Sec-WebSocket-Accept"

/-- Canonical websocket version header key. -/
def versionKey : Str := bytes "Sec-WebSocket-Version"

/-- Canonical websocket protocol header key. -/
def protocolKey : Str := bytes "Sec-WebSocket-Protocol"

/-- Canonical websocket extensions header key. -/
def extensionsKey : Str := bytes "Sec-WebSocket-Extensions"

/-- getOne (wsheaders.go): exactly one value, which must be non-empty, and
is returned with surrounding white space trimmed. -/
def getOne (h : Header) (key : Str) : Except String Str :=
  match headerValues h key with
  | [] => .error "missing header"
  | [v] => if v == [] then .error "empty value" else .ok (trimSpace v)
  | _ => .error "found multiple values"

/-- The RFC 6455 GUID appended to the encoded challenge (challenge.go salt). -/
def wsSalt : Str := bytes "258EAFA5-E914-47DA-95CA-C5AB0DC85B11"

/-- hash (challenge.go): base64 of the SHA-1 of the base64-encoded challenge
followed by the salt. -/
def wsHash (challenge : Str) : Str :=
  base64Encode (sha1 (base64Encode challenge ++ wsSalt))

/-- secWebSocketAccept (accept.go): the accept value computed directly from
the base64 key string. -/
def secWebSocketAccept (secWebSocketKey : Str) : Str :=
  base64Encode (sha1 (secWebSocketKey ++ wsSalt))

/-- GetChallenge (challenge.go): the single non-empty Sec-WebSocket-Key
value, base64-decoded. -/
def GetChallenge (h : Header) : Except String Str :=
  match getOne h challengeKey with
  | .error e => .error e
  | .ok v =>
    match base64Decode v with
    | some b => .ok b
    | none => .error "value is not base64"

/-- VerifyAccept (challenge.go): the single non-empty Sec-WebSocket-Accept
value must equal the hash of the challenge. -/
def VerifyAccept (h : Header) (challenge : Str) : Except String Unit :=
  match getOne h acceptHdrKey with
  | .error e => .error e
  | .ok v => if v == wsHash challenge then .ok () else .error "hash does not match key"

/-- VerifyConnection (wsheaders.go): the Connection header must contain the
case-insensitive Upgrade token. -/
def VerifyConnection (h : Header) : Except String Unit :=
  VerifyContainsToken h (bytes "Connection") (bytes "Upgrade")

/-- VerifyClientUpgrade (wsheaders.go): the Upgrade header must contain the
WebSocket token. -/
def VerifyClientUpgrade (h : Header) : Except String Unit :=
  VerifyContainsToken h (bytes "Upgrade") (bytes "WebSocket")

/-- VerifyServerUpgrade (wsheaders.go): the Upgrade header must be exactly
the case-insensitive WebSocket token. -/
def VerifyServerUpgrade (h : Header) : Except String Unit :=
  VerifyIsToken h (bytes "Upgrade") (bytes "WebSocket")

/-- strconv.Atoi: optional single sign followed by at least one ASCII digit.
Go additionally errors on values outside the machine int range; within
GetVersion that difference is unobservable because any such value also
fails the 0-255 range check. -/
def goAtoi (s : Str) : Option Int :=
  let digitsVal : Str → Option Nat := fun l =>
    if l ≠ [] ∧ l.all (fun c => 48 ≤ c ∧ c ≤ 57) then
      some (l.foldl (fun acc c => acc * 10 + (c - 48)) 0)
    else none
  match s with
  | 43 :: rest => (digitsVal rest).map Int.ofNat
  | 45 :: rest => (digitsVal rest).map (fun n => -(Int.ofNat n))
  | _ => (digitsVal s).map Int.ofNat

/-- GetVersion (wsheaders.go): the single non-empty version value, parsed by
Atoi and required to be in 0-255. -/
def GetVersion (h : Header) : Except String Nat :=
  match getOne h versionKey with
  | .error e => .error e
  | .ok v =>
    match goAtoi v with
    | some i => if 0 ≤ i ∧ i ≤ 255 then .ok i.toNat else .error "value is not in range 0-255"
    | none => .error "value is not in range 0-255"

/-- ParseProtocols (protocols source part): the protocol header values as one
token list. -/
def ParseProtocols (header : Header) : Except String (List Str) :=
  match ParseTokenLists (headerValues header protocolKey) with
  | .error _ => .error "invalid protocol header"
  | .ok t => .ok t

/-- ContainsProtocol: ContainsToken on protocol lists. -/
def ContainsProtocol (protocols : List Str) (protocol : Str) : Bool :=
  ContainsToken protocols protocol

/-- SelectProtocol loop: the first supported protocol offered, in the order
of the supported list. -/
def selectProtocolLoop (offered : List Str) : List Str → Str × Bool
  | [] => ([], false)
  | s :: rest =>
    if ContainsProtocol offered s then (s, true) else selectProtocolLoop offered rest

/-- SelectProtocol (protocols source part): first case-insensitive supported
protocol that is offered, priority to the supported order; no selection when
nothing matches or the header fails to parse. -/
def SelectProtocol (header : Header) (supported : List Str) : Str × Bool :=
  match ParseProtocols header with
  | .error _ => ([], false)
  | .ok offered => selectProtocolLoop offered supported

/-- Extension parameter: name with optional value (empty = no value). -/
structure ExtensionParam where
  name : Str
  value : Str
deriving DecidableEq, Repr

/-- Extension: name with ordered parameter list. -/
structure Extension where
  name : Str
  params : List ExtensionParam
deriving DecidableEq, Repr

/-- Extension list. -/
abbrev Extensions := List Extension

/-- parseParam (extensions source part): token name, optionally "=" and a
token or quoted-string value that must itself be a token. -/
def parseParam (s : Str) : Except String (ExtensionParam × Str) :=
  match ReadToken s with
  | .error _ => .error "parameter name"
  | .ok (name, rest) =>
    if rest.headD 0 == 61 ∧ rest ≠ [] then
      match ReadString (trimLeftSpace (rest.drop 1)) with
      | .error _ => .error "parameter value"
      | .ok (value, rest') =>
        if IsToken value then .ok (⟨name, value⟩, rest')
        else .error "parameter value: invalid token"
    else .ok (⟨name, []⟩, rest)

/-- parseExtension parameter loop: parameters as long as the rest starts
with a semicolon.  Each iteration consumes at least one byte, so fuel
`s.length + 1` never runs out. -/
def parseExtParamsAux : Nat → List ExtensionParam → Str → Except String (List ExtensionParam × Str)
  | 0, _, _ => .error "out of fuel"
  | fuel + 1, acc, rest =>
    if rest.headD 0 == 59 ∧ rest ≠ [] then
      match parseParam (trimLeftSpace (rest.drop 1)) with
      | .error e => .error e
      | .ok (param, rest') => parseExtParamsAux fuel (acc ++ [param]) rest'
    else .ok (acc, rest)

/-- parseExtension (extensions source part): token name then parameters. -/
def parseExtension (s : Str) : Except String (Extension × Str) :=
  match ReadToken s with
  | .error _ => .error "extension name"
  | .ok (name, rest) =>
    match parseExtParamsAux (rest.length + 1) [] rest with
    | .error e => .error e
    | .ok (params, rest') => .ok (⟨name, params⟩, rest')

/-- parseExtensionList loop: extensions separated by commas, skipping empty
elements; a non-empty, non-comma rest after an extension is an error. -/
def parseExtListAux : Nat → Str → Except String Extensions
  | 0, _ => .error "out of fuel"
  | fuel + 1, rest =>
    match parseExtension rest with
    | .error e => .error e
    | .ok (ext, rest') =>
      if rest' == [] then .ok [ext]
      else if rest'.headD 0 ≠ 44 then .error "expecting comma"
      else
        let rest2 := trimLeftCommaOrSpace rest'
        if rest2 == [] then .ok [ext]
        else (parseExtListAux fuel rest2).map (ext :: ·)

/-- parseExtensionList (extensions source part). -/
def parseExtensionList (val : Str) : Except String Extensions :=
  parseExtListAux (val.length + 1) (trimLeftCommaOrSpace val)

/-- ParseExtensions (extensions source part): parse every value of the
extensions header and concatenate in header order; no values parse to no
extensions. -/
def ParseExtensions (header : Header) : Except String Extensions :=
  match headerValues header extensionsKey with
  | [] => .ok []
  | v :: rest =>
    match parseExtensionList v with
    | .error e => .error e
    | .ok first =>
      rest.foldlM (fun acc val => (parseExtensionList val).map (acc ++ ·)) first

/-! ## websocket package: compression negotiation (part_002, accept.go) -/

/-- Modelled from the spec: the CompressionMode enum (compress.go is not
among the provided sources).  Static policy chosen by the caller:
Disabled, NoContextTakeover, or ContextTakeover. -/
inductive CompressionMode where
  | CompressionDisabled
  | CompressionNoContextTakeover
  | CompressionContextTakeover
deriving DecidableEq, Repr

/-- Negotiated compression options (client/server no-context-takeover
flags). -/
structure compressionOptions where
  clientNoContextTakeover : Bool
  serverNoContextTakeover : Bool
deriving DecidableEq, Repr

/-- Modelled from the spec: mode.opts(), the fresh default options derived
from the mode (compress.go is not among the provided sources).  Per the
spec's glossary, "no context takeover" discards compression state between
messages on each direction, so the NoContextTakeover mode defaults both
direction flags to true and the ContextTakeover mode to false (matching the
expected values in the repository's selectDeflate and dial tests). -/
def CompressionMode.opts : CompressionMode → compressionOptions
  | .CompressionDisabled => ⟨false, false⟩
  | .CompressionNoContextTakeover => ⟨true, true⟩
  | .CompressionContextTakeover => ⟨false, false⟩

/-- Modelled from the spec: isValidWindowBits (compress.go is not among the
provided sources), true exactly for the decimal values 8 through 15. -/
def isValidWindowBits (v : Str) : Bool :=
  v == bytes "8" || v == bytes "9" || v == bytes "10" || v == bytes "11" ||
  v == bytes "12" || v == bytes "13" || v == bytes "14" || v == bytes "15"

/-- acceptDeflate parameter loop (part_002): reject a duplicated name, the
takeover flags must be valueless, client_max_window_bits may be valueless
or 8-15, server_max_window_bits must be exactly 15, anything else rejects
the instance. -/
def acceptDeflateAux (copts : compressionOptions) (seen : List Str) :
    List ExtensionParam → Option compressionOptions
  | [] => some copts
  | p :: rest =>
    if seen.contains p.name then none
    else
      let seen' := p.name :: seen
      if p.name == bytes "client_no_context_takeover" then
        if p.value == [] then
          acceptDeflateAux { copts with clientNoContextTakeover := true } seen' rest
        else none
      else if p.name == bytes "server_no_context_takeover" then
        if p.value == [] then
          acceptDeflateAux { copts with serverNoContextTakeover := true } seen' rest
        else none
      else if p.name == bytes "client_max_window_bits" then
        if p.value == [] || isValidWindowBits p.value then acceptDeflateAux copts seen' rest
        else none
      else if p.name == bytes "server_max_window_bits" then
        if p.value == bytes "15" then acceptDeflateAux copts seen' rest
        else none
      else none

/-- acceptDeflate (part_002): accept one permessage-deflate offer against a
fresh copy of the mode's default options. -/
def acceptDeflate (mode : CompressionMode) (params : List ExtensionParam) :
    Option compressionOptions :=
  acceptDeflateAux mode.opts [] params

/-- selectDeflate (part_002): nothing when compression is disabled, else the
first permessage-deflate offer that acceptDeflate accepts, in header order. -/
def selectDeflate (mode : CompressionMode) : Extensions → Option compressionOptions
  | [] => none
  | ext :: rest =>
    if mode == .CompressionDisabled then none
    else if ext.name == bytes "permessage-deflate" then
      match acceptDeflate mode ext.params with
      | some copts => some copts
      | none => selectDeflate mode rest
    else selectDeflate mode rest

/-! ## websocket package: server-side request verification (part_002) -/

/-- The parts of http.Request read by the embedded functions. -/
structure Request where
  protoMajor : Nat
  protoMinor : Nat
  method : Str
  host : Str
  header : Header

/-- Request.ProtoAtLeast (net/http). -/
def protoAtLeast (r : Request) (major minor : Nat) : Bool :=
  r.protoMajor > major || (r.protoMajor == major && r.protoMinor ≥ minor)

/-- verifyClientRequest (part_002): HTTP version, Connection, Upgrade,
method, version and challenge checks in order, first failure winning, each
with its suggested HTTP status code; success yields the decoded challenge. -/
def verifyClientRequest (r : Request) : Except (Nat × String) Str :=
  if !protoAtLeast r 1 1 then
    .error (426, "handshake request must be at least HTTP 1.1")
  else
    match VerifyConnection r.header with
    | .error e => .error (426, e)
    | .ok () =>
      match VerifyClientUpgrade r.header with
      | .error e => .error (426, e)
      | .ok () =>
        if r.method ≠ bytes "GET" then
          .error (405, "handshake request method is not GET")
        else
          match GetVersion r.header with
          | .error e => .error (426, e)
          | .ok v =>
            if v ≠ 13 then .error (400, "unsupported WebSocket protocol version")
            else
              match GetChallenge r.header with
              | .error e => .error (400, e)
              | .ok challenge => .ok challenge

/-! ## websocket package: origin authorization (part_002 / accept.go) -/

/-- strings.Split on one byte, preserving empty elements. -/
def splitOnByteAux (b : Nat) : Str → Str → List Str
  | acc, [] => [acc.reverse]
  | acc, c :: rest =>
    if c == b then acc.reverse :: splitOnByteAux b [] rest
    else splitOnByteAux b (c :: acc) rest

/-- strings.Split on one byte. -/
def splitOnByte (b : Nat) (s : Str) : List Str := splitOnByteAux b [] s

/-- The host part of net/url.Parse, for origin values of the form
scheme://host[/...] (the shapes the Origin header carries): the bytes after
the first "://" up to a slash.  Origins without "://" are reported as not
parsing; such values are outside the scope of the claims settled here. -/
def urlHost : Str → Option Str
  | 58 :: 47 :: 47 :: rest => some (rest.takeWhile (fun c => c ≠ 47))
  | _ :: rest => urlHost rest
  | [] => none

/-- scanChunk scan (path/filepath.Match): split the pattern at the next
top-level star, tracking bracket ranges, keeping escapes with their byte. -/
def scanChunkAux : Bool → Str → Str × Str
  | _, [] => ([], [])
  | inrange, c :: rest =>
    if c == 92 then
      match rest with
      | [] => ([92], [])
      | d :: rest' =>
        let (ch, r) := scanChunkAux inrange rest'
        (92 :: d :: ch, r)
    else if c == 91 then
      let (ch, r) := scanChunkAux true rest
      (91 :: ch, r)
    else if c == 93 then
      let (ch, r) := scanChunkAux false rest
      (93 :: ch, r)
    else if c == 42 && !inrange then ([], c :: rest)
    else
      let (ch, r) := scanChunkAux inrange rest
      (c :: ch, r)

/-- getEsc (path/filepath.Match): one (possibly escaped) range endpoint; a
leading hyphen or closing bracket, a dangling escape, or an endpoint that
ends the chunk is a bad pattern. -/
def getEsc : Str → Except Unit (Nat × Str)
  | [] => .error ()
  | c :: rest =>
    if c == 45 || c == 93 then .error ()
    else if c == 92 then
      match rest with
      | [] => .error ()
      | d :: rest' => if rest' == [] then .error () else .ok (d, rest')
    else if rest == [] then .error () else .ok (c, rest)

/-- Bracket-range loop of matchChunk (path/filepath.Match): parse ranges
until the closing bracket, recording whether the (optional) consumed byte
fell in some range.  Fuel bounds the iterations. -/
def matchRangesAux : Nat → Option Nat → Nat → Bool → Str → Except Unit (Bool × Str)
  | 0, _, _, _, _ => .error ()
  | fuel + 1, r, nrange, matched, chunk =>
    if chunk.headD 0 == 93 ∧ nrange > 0 ∧ chunk ≠ [] then .ok (matched, chunk.drop 1)
    else
      match getEsc chunk with
      | .error () => .error ()
      | .ok (lo, chunk1) =>
        match (if chunk1.headD 0 == 45 then (getEsc (chunk1.drop 1)).map (fun p => (p.1, p.2))
               else .ok (lo, chunk1) : Except Unit (Nat × Str)) with
        | .error () => .error ()
        | .ok (hi, chunk2) =>
          let matched' := matched || (match r with
            | some rv => decide (lo ≤ rv ∧ rv ≤ hi)
            | none => false)
          matchRangesAux fuel r (nrange + 1) matched' chunk2

/-- matchChunk (path/filepath.Match): match the chunk against the head of
the name; on failure keep parsing the chunk to validate its syntax.
Returns the rest of the name on success, none on mismatch, error on a bad
pattern.  Fuel bounds the iterations. -/
def matchChunkAux : Nat → Bool → Str → Str → Except Unit (Option Str)
  | 0, _, _, _ => .error ()
  | fuel + 1, failed0, chunk, s =>
    match chunk with
    | [] => .ok (if failed0 then none else some s)
    | c :: rest =>
      let failed := failed0 || s.isEmpty
      if c == 91 then
        let r : Option Nat := if failed then none else some (s.headD 0)
        let s' := if failed then s else s.drop 1
        let negated := rest.headD 0 == 94 ∧ rest ≠ []
        let rest2 := if negated then rest.drop 1 else rest
        match matchRangesAux (rest2.length + 1) r 0 false rest2 with
        | .error () => .error ()
        | .ok (m, rest3) => matchChunkAux fuel (failed || (m == negated)) rest3 s'
      else if c == 63 then
        let failed' := failed || (!failed && s.headD 0 == 47)
        let s' := if failed then s else s.drop 1
        matchChunkAux fuel failed' rest s'
      else if c == 92 then
        match rest with
        | [] => .error ()
        | d :: rest' =>
          let failed' := failed || (!failed && !(d == s.headD 0))
          let s' := if failed then s else s.drop 1
          matchChunkAux fuel failed' rest' s'
      else
        let failed' := failed || (!failed && !(c == s.headD 0))
        let s' := if failed then s else s.drop 1
        matchChunkAux fuel failed' rest s'

/-- Main loop of path/filepath.Match (Unix separator 47): chunks in order;
a trailing star matches any separator-free rest; a star chunk retries at
every separator-free skip of the name (the `some i` scanning state).
Fuel bounds the total number of steps. -/
def fpMatchAux : Nat → Str → Str → Option Nat → Except Unit Bool
  | 0, _, _, _ => .error ()
  | fuel + 1, pattern, name, scan =>
    if pattern == [] then .ok (name == []) else
    let star := pattern.headD 0 == 42
    let p1 := pattern.dropWhile (fun b => b == 42)
    let (chunk, prest) := scanChunkAux false p1
    if star ∧ chunk == [] then .ok (!(name.contains 47))
    else
      match scan with
      | none =>
        match matchChunkAux (chunk.length + 1) false chunk name with
        | .error () => .error ()
        | .ok (some t) =>
          if t == [] || prest ≠ [] then fpMatchAux fuel prest t none
          else if star then fpMatchAux fuel pattern name (some 0)
          else .ok false
        | .ok none =>
          if star then fpMatchAux fuel pattern name (some 0)
          else .ok false
      | some i =>
        if i < name.length ∧ name.getD i 0 ≠ 47 then
          match matchChunkAux (chunk.length + 1) false chunk (name.drop (i + 1)) with
          | .error () => .error ()
          | .ok (some t) =>
            if prest == [] ∧ t ≠ [] then fpMatchAux fuel pattern name (some (i + 1))
            else fpMatchAux fuel prest t none
          | .ok none => fpMatchAux fuel pattern name (some (i + 1))
        else .ok false

/-- path/filepath.Match: some matched, or none for a bad pattern. -/
def filepathMatch (pattern name : Str) : Option Bool :=
  match fpMatchAux ((pattern.length + 2) * (name.length + 2)) pattern name none with
  | .ok b => some b
  | .error () => none

/-- match (part_002): filepath.Match over the lower-cased pattern and
string. -/
def goMatch (pattern s : Str) : Option Bool := filepathMatch (lowerStr pattern) (lowerStr s)

/-- Pattern loop of authenticateOrigin: a bad pattern is an error, a match
authorizes, exhaustion is the not-authorized error. -/
def authPatternLoop (uhost : Str) : List Str → Except String Unit
  | [] => .error "request Origin is not authorized for Host"
  | p :: rest =>
    match goMatch p uhost with
    | none => .error "failed to parse filepath pattern"
    | some true => .ok ()
    | some false => authPatternLoop uhost rest

/-- authenticateOrigin (part_002): no Origin header authorizes; a parsed
origin host equal (case-insensitively) to the request host authorizes;
otherwise the origin host is matched against the case-insensitive glob
patterns. -/
def authenticateOrigin (r : Request) (originHosts : List Str) : Except String Unit :=
  let origin := headerGet r.header (bytes "Origin")
  if origin == [] then .ok ()
  else
    match urlHost origin with
    | none => .error "failed to parse Origin header"
    | some uhost =>
      if EqualFold r.host uhost then .ok ()
      else authPatternLoop uhost originHosts

/-! ## websocket package: client-side response verification (part_001) -/

/-- The parts of http.Response read by the embedded functions. -/
structure Response where
  statusCode : Nat
  header : Header

/-- headerTokens (accept.go): all values of the key, each trimmed, split on
commas, each token lower-cased and trimmed. -/
def headerTokens (h : Header) (key : Str) : List Str :=
  (headerValues h key).foldr
    (fun v acc => (splitOnByte 44 (trimSpace v)).map (fun t => trimSpace (lowerStr t)) ++ acc) []

/-- verifySubprotocol (part_001): an absent protocol header is fine,
otherwise the value must case-insensitively equal an offered subprotocol. -/
def verifySubprotocol (subprotos : List Str) (resp : Response) : Except String Unit :=
  let proto := headerGet resp.header protocolKey
  if proto == [] then .ok ()
  else if subprotos.any (fun sp => EqualFold sp proto) then .ok ()
  else .error "unexpected Sec-WebSocket-Protocol from server"

/-- Client-side view of one offered extension: name and raw parameter
strings. -/
structure websocketExtension where
  name : Str
  params : List Str
deriving DecidableEq, Repr

/-- Modelled from the spec: websocketExtensions, the client-side parse of
the response Sec-WebSocket-Extensions header (the function is called by
part_001 verifyServerExtensions but its definition is not among the
provided sources).  Per the spec's data model, the header values form a
comma-separated extension list, each element a name followed by
semicolon-separated parameters; an absent header yields zero extensions. -/
def websocketExtensions (h : Header) : List websocketExtension :=
  (headerTokens h extensionsKey).filterMap (fun extStr =>
    if extStr == [] then none
    else
      let vals := (splitOnByte 59 extStr).map trimSpace
      some ⟨vals.headD [], vals.tail⟩)

/-- True when s begins with p. -/
def listStartsWith : Str → Str → Bool
  | _, [] => true
  | [], _ :: _ => false
  | a :: s, b :: p => a == b && listStartsWith s p

/-- Parameter loop of verifyServerExtensions (part_001): the takeover flags
set their bit, a server_max_window_bits value is accepted unconditionally,
anything else is a protocol violation. -/
def serverExtParamsLoop (c : compressionOptions) :
    List Str → Except String (Option compressionOptions)
  | [] => .ok (some c)
  | p :: rest =>
    if p == bytes "client_no_context_takeover" then
      serverExtParamsLoop { c with clientNoContextTakeover := true } rest
    else if p == bytes "server_no_context_takeover" then
      serverExtParamsLoop { c with serverNoContextTakeover := true } rest
    else if listStartsWith p (bytes "server_max_window_bits=") then
      serverExtParamsLoop c rest
    else .error "unsupported permessage-deflate parameter"

/-- verifyServerExtensions (part_001): zero extensions disable compression;
otherwise there must be exactly one, named permessage-deflate, with the
client having offered compression, and its parameters are inspected. -/
def verifyServerExtensions (copts : Option compressionOptions) (h : Header) :
    Except String (Option compressionOptions) :=
  match websocketExtensions h with
  | [] => .ok none
  | ext :: restExts =>
    match copts with
    | none => .error "unsupported extensions from server"
    | some c =>
      if ext.name ≠ bytes "permessage-deflate" ∨ restExts ≠ [] then
        .error "unsupported extensions from server"
      else serverExtParamsLoop c ext.params

/-- verifyServerResponse (part_001): status 101, then the Connection,
Upgrade, accept-hash, subprotocol and extensions checks in order, first
failure winning.  The DialOptions argument is reduced to the offered
subprotocol list, the only field the source reads. -/
def verifyServerResponse (subprotocols : List Str) (copts : Option compressionOptions)
    (challenge : Str) (resp : Response) : Except String (Option compressionOptions) :=
  if resp.statusCode ≠ 101 then .error "expected handshake response status code 101"
  else
    match VerifyConnection resp.header with
    | .error _ => .error "protocol violation: Connection"
    | .ok () =>
      match VerifyServerUpgrade resp.header with
      | .error _ => .error "protocol violation: Upgrade"
      | .ok () =>
        match VerifyAccept resp.header challenge with
        | .error _ => .error "protocol violation: Accept"
        | .ok () =>
          match verifySubprotocol subprotocols resp with
          | .error e => .error e
          | .ok () => verifyServerExtensions copts resp.header

/-! ## Theorems for the claims -/

/-- Escaped bytes are CHARs: QuoteString escapes only non-TEXT bytes (all
of which are control bytes, hence ASCII), the quote and the backslash. -/
theorem quoteEscapes_isChar (b : Nat) (h : quoteEscapes b = true) : isChar b = true := by
  by_contra hc
  have hb : 128 ≤ b := by
    unfold isChar at hc
    simp only [decide_eq_true_eq] at hc
    omega
  have h31 : (decide (b ≤ 31)) = false := by simp only [decide_eq_false_iff_not]; omega
  have h127 : (b == 127) = false := beq_eq_false_iff_ne.mpr (by omega)
  have h34 : (b == 34) = false := beq_eq_false_iff_ne.mpr (by omega)
  have h92 : (b == 92) = false := beq_eq_false_iff_ne.mpr (by omega)
  unfold quoteEscapes isText isControl at h
  rw [h31, h127, h34, h92] at h
  simp at h

/-- Reading back an escaped body: the scan after the opening quote returns
the unescaped body and the input after the closing quote. -/
theorem readQSAux_quoteBody (s : Str) :
    ∀ rest, readQSAux (quoteBody s ++ 34 :: rest) = .ok (s, trimLeftSpace rest) := by
  induction s with
  | nil =>
    intro rest
    rw [quoteBody, List.nil_append, readQSAux.eq_def]
    norm_num
  | cons b t ih =>
    intro rest
    by_cases hb : quoteEscapes b = true
    · have hc := quoteEscapes_isChar b hb
      rw [quoteBody, hb]
      simp only [if_pos, List.cons_append, List.nil_append]
      rw [readQSAux.eq_def]
      simp [hc, ih rest, Except.map]
    · have hb' : quoteEscapes b = false := by simpa using hb
      have h34 : (b == 34) = false := by
        unfold quoteEscapes at hb'
        rcases Bool.or_eq_false_iff.mp hb' with ⟨h1, _⟩
        exact (Bool.or_eq_false_iff.mp h1).2
      have h92 : (b == 92) = false := by
        unfold quoteEscapes at hb'
        exact (Bool.or_eq_false_iff.mp hb').2
      rw [quoteBody, hb']
      simp only [if_neg, Bool.false_eq_true, not_false_iff, List.cons_append, List.nil_append]
      rw [readQSAux.eq_def]
      simp [h34, h92, ih rest, Except.map]

/-- C8: for every string s, reading back the quoted form round-trips
exactly: ReadQuotedString (QuoteString s) returns the value s, empty
remaining input, and no error. -/
theorem c8_quote_round_trip (s : Str) :
    ReadQuotedString (QuoteString s) = .ok (s, []) := by
  have h := readQSAux_quoteBody s []
  rw [QuoteString, ReadQuotedString]
  norm_num
  rw [h]
  rfl

set_option maxRecDepth 20000 in
/-- C1: the accept hash is a pure function of the challenge, equal to
base64(SHA1(base64(challenge) ++ GUID)); the 16 challenge bytes whose
base64 encoding is dGhlIHNhbXBsZSBub25jZQ== hash to exactly
s3pPLMBiTxaQ9kYGzzhZRbK+xOo=, and the hash agrees with accept.go's
secWebSocketAccept applied to the base64-encoded key. -/
theorem c1_accept_hash :
    wsHash (bytes "the sample nonce") = bytes "s3pPLMBiTxaQ9kYGzzhZRbK+xOo=" ∧
    base64Encode (bytes "the sample nonce") = bytes "dGhlIHNhbXBsZSBub25jZQ==" ∧
    (bytes "the sample nonce").length = 16 ∧
    (∀ challenge : Str,
      wsHash challenge = base64Encode (sha1 (base64Encode challenge ++ wsSalt))) ∧
    (∀ challenge : Str, wsHash challenge = secWebSocketAccept (base64Encode challenge)) :=
  ⟨by rfl, by rfl, by rfl, fun _ => rfl, fun _ => rfl⟩

/-- C3 (amended): VerifyAccept succeeds iff the Sec-WebSocket-Accept header
has exactly one value, which is non-empty and whose whitespace-trimmed form
equals the accept hash of the challenge; zero values, multiple values, an
empty value, or any value not trimming to the hash is an error. -/
theorem c3_verify_accept_iff : ∀ (h : Header) (c : Str),
    VerifyAccept h c = .ok () ↔
      ∃ v, headerValues h acceptHdrKey = [v] ∧ v ≠ [] ∧ trimSpace v = wsHash c := by
  intro h c
  unfold VerifyAccept getOne
  rcases hv : headerValues h acceptHdrKey with _ | ⟨v, tail⟩
  · simp
  · rcases tail with _ | ⟨w, tail⟩
    · by_cases hvz : v = []
      · subst hvz
        simp
      · have hvb : (v == ([] : Str)) = false := beq_eq_false_iff_ne.mpr hvz
        simp only [hvb, Bool.false_eq_true, if_neg, not_false_iff]
        by_cases ht : trimSpace v = wsHash c
        · simp [ht, hvz]
        · have htb : (trimSpace v == wsHash c) = false := beq_eq_false_iff_ne.mpr ht
          simp [htb, hvz, ht]
    · simp

set_option maxRecDepth 40000 in
/-- C3 counterexample: a single Sec-WebSocket-Accept value consisting of a
space followed by the accept hash is not byte-for-byte equal to the hash,
yet VerifyAccept succeeds (getOne trims surrounding white space), refuting
the byte-for-byte reading of the claim. -/
theorem c3_verify_accept_counterexample :
    VerifyAccept [(acceptHdrKey, 32 :: wsHash (bytes "the sample nonce"))]
        (bytes "the sample nonce") = .ok () ∧
    32 :: wsHash (bytes "the sample nonce") ≠ wsHash (bytes "the sample nonce") :=
  ⟨by rfl, by
    intro heq
    have := congrArg List.length heq
    simp at this⟩

/-- C7 (amended): GetChallenge succeeds iff the Sec-WebSocket-Key header
has exactly one value, which is non-empty and whose whitespace-trimmed form
is valid base64 (possibly empty), yielding its decoded bytes; and
verifyClientRequest propagates a challenge failure as status 400 after the
earlier checks pass, and yields the decoded challenge on success. -/
theorem c7_challenge_verification :
    (∀ (h : Header) (b : Str),
      GetChallenge h = .ok b ↔
        ∃ v, headerValues h challengeKey = [v] ∧ v ≠ [] ∧
          base64Decode (trimSpace v) = some b) ∧
    (∀ (r : Request) (e : String),
      protoAtLeast r 1 1 = true →
      VerifyConnection r.header = .ok () →
      VerifyClientUpgrade r.header = .ok () →
      r.method = bytes "GET" →
      GetVersion r.header = .ok 13 →
      GetChallenge r.header = .error e →
      verifyClientRequest r = .error (400, e)) ∧
    (∀ (r : Request) (challenge : Str),
      protoAtLeast r 1 1 = true →
      VerifyConnection r.header = .ok () →
      VerifyClientUpgrade r.header = .ok () →
      r.method = bytes "GET" →
      GetVersion r.header = .ok 13 →
      GetChallenge r.header = .ok challenge →
      verifyClientRequest r = .ok challenge) := by
  refine ⟨?_, ?_, ?_⟩
  · intro h b
    unfold GetChallenge getOne
    rcases hv : headerValues h challengeKey with _ | ⟨v, tail⟩
    · simp
    · rcases tail with _ | ⟨w, tail⟩
      · by_cases hvz : v = []
        · subst hvz
          simp
        · have hvb : (v == ([] : Str)) = false := beq_eq_false_iff_ne.mpr hvz
          simp only [hvb, Bool.false_eq_true, if_neg, not_false_iff]
          rcases hd : base64Decode (trimSpace v) with _ | d
          · simp [hvz, hd]
          · simp [hvz, hd, eq_comm]
      · simp
  · intro r e hp hc hu hm hv hch
    unfold verifyClientRequest
    rw [hp, hc, hu, hm, hv, hch]
    simp
  · intro r challenge hp hc hu hm hv hch
    unfold verifyClientRequest
    rw [hp, hc, hu, hm, hv, hch]
    simp

/-- C7 counterexample: a Sec-WebSocket-Key value of a single space is not
valid base64, yet server-side verification succeeds (getOne trims it to the
empty string, which decodes to an empty challenge) instead of failing with
status 400. -/
theorem c7_challenge_counterexample :
    base64Decode [32] = none ∧
    GetChallenge [(challengeKey, [32])] = .ok [] ∧
    verifyClientRequest
      { protoMajor := 1, protoMinor := 1, method := bytes "GET", host := [],
        header := [(bytes "Connection", bytes "Upgrade"),
                   (bytes "Upgrade", bytes "websocket"),
                   (versionKey, bytes "13"),
                   (challengeKey, [32])] } = .ok [] :=
  ⟨by rfl, by rfl, by rfl⟩

/-- C10: GetVersion accepts non-canonical numeric encodings: 013, +13 and
a whitespace-surrounded 13 all parse to version 13 and pass the server's
version check inside verifyClientRequest; and GetVersion succeeds exactly
when the header has a single non-empty value whose trimmed form Atoi-parses
to an integer in 0-255. -/
theorem c10_version_parsing :
    GetVersion [(versionKey, bytes "013")] = .ok 13 ∧
    GetVersion [(versionKey, bytes "+13")] = .ok 13 ∧
    GetVersion [(versionKey, bytes " 13 ")] = .ok 13 ∧
    verifyClientRequest
      { protoMajor := 1, protoMinor := 1, method := bytes "GET", host := [],
        header := [(bytes "Connection", bytes "Upgrade"),
                   (bytes "Upgrade", bytes "websocket"),
                   (versionKey, bytes "013"),
                   (challengeKey, bytes "dGhlIHNhbXBsZSBub25jZQ==")] } =
      .ok (bytes "the sample nonce") ∧
    (∀ h : Header,
      (∃ v, GetVersion h = .ok v) ↔
        ∃ s, headerValues h versionKey = [s] ∧ s ≠ [] ∧
          ∃ i : Int, goAtoi (trimSpace s) = some i ∧ 0 ≤ i ∧ i ≤ 255) := by
  refine ⟨by rfl, by rfl, by rfl, by rfl, ?_⟩
  intro h
  unfold GetVersion getOne
  rcases hv : headerValues h versionKey with _ | ⟨v, tail⟩
  · simp
  · rcases tail with _ | ⟨w, tail⟩
    · by_cases hvz : v = []
      · subst hvz
        simp
      · have hvb : (v == ([] : Str)) = false := beq_eq_false_iff_ne.mpr hvz
        simp only [hvb, Bool.false_eq_true, if_neg, not_false_iff]
        rcases ha : goAtoi (trimSpace v) with _ | i
        · simp [hvz, ha]
        · by_cases hr : 0 ≤ i ∧ i ≤ 255
          · simp [hvz, ha, hr]
          · simp only [hr, if_neg, not_false_iff, if_false]
            simp [hvz, ha]
            intro h1
            omega
    · simp

/-- First-match property of the subprotocol selection loop: a selected
protocol is the first element of the supported list (in the server's
order) matched by the offered list. -/
theorem selectProtocolLoop_first (offered : List Str) :
    ∀ (sup : List Str) (s : Str), selectProtocolLoop offered sup = (s, true) →
      ∃ i, i < sup.length ∧ sup.getD i [] = s ∧ ContainsProtocol offered s = true ∧
        ∀ j, j < i → ContainsProtocol offered (sup.getD j []) = false := by
  intro sup
  induction sup with
  | nil => intro s hs; simp [selectProtocolLoop] at hs
  | cons p rest ih =>
    intro s hs
    unfold selectProtocolLoop at hs
    by_cases hc : ContainsProtocol offered p = true
    · rw [if_pos hc] at hs
      have hp : p = s := congrArg Prod.fst hs
      refine ⟨0, by simp, ?_, ?_, ?_⟩
      · simpa using hp
      · rw [← hp]; exact hc
      · intro j hj; omega
    · have hcf : ContainsProtocol offered p = false := by
        revert hc; cases ContainsProtocol offered p <;> simp
      rw [if_neg (by simp [hcf])] at hs
      obtain ⟨i, hi, hgi, hci, hfirst⟩ := ih s hs
      refine ⟨i + 1, by simpa using hi, by simpa using hgi, hci, ?_⟩
      intro j hj
      cases j with
      | zero => simpa using hcf
      | succ j' =>
        have := hfirst j' (by omega)
        simpa using this

/-- No-match property of the subprotocol selection loop. -/
theorem selectProtocolLoop_none (offered : List Str) :
    ∀ sup : List Str, (∀ s ∈ sup, ContainsProtocol offered s = false) →
      selectProtocolLoop offered sup = ([], false) := by
  intro sup
  induction sup with
  | nil => intro _; rfl
  | cons p rest ih =>
    intro hall
    unfold selectProtocolLoop
    rw [if_neg (by simp [hall p (by simp)])]
    exact ih (fun s hs => hall s (by simp [hs]))

/-- C4: SelectProtocol iterates the supported list in the server's priority
order and returns the first supported element that case-insensitively
matches an offered token, in the server's casing (supported BAR,FOO with
offer foo negotiates FOO); a parse failure or no match yields no selection
rather than an error. -/
theorem c4_select_protocol :
    SelectProtocol [(protocolKey, bytes "foo")] [bytes "BAR", bytes "FOO"] =
      (bytes "FOO", true) ∧
    (∀ (h : Header) (sup : List Str) (e : String),
      ParseProtocols h = .error e → SelectProtocol h sup = ([], false)) ∧
    (∀ (h : Header) (sup offered : List Str) (s : Str),
      ParseProtocols h = .ok offered → SelectProtocol h sup = (s, true) →
      ∃ i, i < sup.length ∧ sup.getD i [] = s ∧ ContainsProtocol offered s = true ∧
        ∀ j, j < i → ContainsProtocol offered (sup.getD j []) = false) ∧
    (∀ (h : Header) (sup offered : List Str),
      ParseProtocols h = .ok offered →
      (∀ s ∈ sup, ContainsProtocol offered s = false) →
      SelectProtocol h sup = ([], false)) := by
  refine ⟨by rfl, ?_, ?_, ?_⟩
  · intro h sup e hp
    unfold SelectProtocol
    rw [hp]
  · intro h sup offered s hp hs
    unfold SelectProtocol at hs
    rw [hp] at hs
    exact selectProtocolLoop_first offered sup s hs
  · intro h sup offered hp hall
    unfold SelectProtocol
    rw [hp]
    exact selectProtocolLoop_none offered sup hall

/-- The deflate parameter loop rejects whenever the instance carries a
server_max_window_bits parameter with any value other than 15, regardless
of accumulated state. -/
theorem acceptDeflateAux_smwb :
    ∀ (params : List ExtensionParam) (copts : compressionOptions) (seen : List Str) (v : Str),
      (⟨bytes "server_max_window_bits", v⟩ : ExtensionParam) ∈ params → v ≠ bytes "15" →
      acceptDeflateAux copts seen params = none := by
  intro params
  induction params with
  | nil => intro _ _ _ hmem _; cases hmem
  | cons p rest ih =>
    intro copts seen v hmem hne
    rcases List.mem_cons.mp hmem with heq | hmem'
    · have hp : p = ⟨bytes "server_max_window_bits", v⟩ := heq.symm
      subst hp
      unfold acceptDeflateAux
      split
      · rfl
      · have hv : ((⟨bytes "server_max_window_bits", v⟩ : ExtensionParam).value == bytes "15") = false :=
          beq_eq_false_iff_ne.mpr hne
        simp only [hv]
        norm_num
        rw [if_neg (by decide), if_neg (by decide), if_neg (by decide)]
    · unfold acceptDeflateAux
      split
      · rfl
      · split
        · split
          · exact ih _ _ v hmem' hne
          · rfl
        · split
          · split
            · exact ih _ _ v hmem' hne
            · rfl
          · split
            · split
              · exact ih _ _ v hmem' hne
              · rfl
            · split
              · split
                · exact ih _ _ v hmem' hne
                · rfl
              · rfl

/-- The deflate parameter loop rejects whenever a parameter name repeats
(or already appears in the seen accumulator). -/
theorem acceptDeflateAux_dup :
    ∀ (params : List ExtensionParam) (copts : compressionOptions) (seen : List Str),
      ((∃ n, n ∈ seen ∧ n ∈ params.map ExtensionParam.name) ∨
        ¬(params.map ExtensionParam.name).Nodup) →
      acceptDeflateAux copts seen params = none := by
  intro params
  induction params with
  | nil =>
    intro _ seen hyp
    rcases hyp with ⟨n, _, hn⟩ | hnd
    · simp at hn
    · simp at hnd
  | cons p rest ih =>
    intro copts seen hyp
    unfold acceptDeflateAux
    split
    · rfl
    · rename_i hnc
      have hpn : p.name ∉ seen := by
        intro hm
        exact hnc (by simpa using hm)
      have hrest : (∃ n, n ∈ (p.name :: seen) ∧ n ∈ rest.map ExtensionParam.name) ∨
          ¬(rest.map ExtensionParam.name).Nodup := by
        rcases hyp with ⟨n, hns, hnp⟩ | hnd
        · rcases List.mem_cons.mp hnp with hn1 | hn2
          · exact absurd (hn1 ▸ hns) hpn
          · exact Or.inl ⟨n, List.mem_cons_of_mem _ hns, hn2⟩
        · rw [List.map_cons, List.nodup_cons] at hnd
          push_neg at hnd
          by_cases hin : p.name ∈ rest.map ExtensionParam.name
          · exact Or.inl ⟨p.name, List.mem_cons_self _ _, hin⟩
          · exact Or.inr (hnd hin)
      split
      · split
        · exact ih _ _ hrest
        · rfl
      · split
        · split
          · exact ih _ _ hrest
          · rfl
        · split
          · split
            · exact ih _ _ hrest
            · rfl
          · split
            · split
              · exact ih _ _ hrest
              · rfl
            · rfl

/-- The deflate parameter loop rejects whenever the instance carries a
parameter whose name is none of the four recognized permessage-deflate
parameter names. -/
theorem acceptDeflateAux_unknown :
    ∀ (params : List ExtensionParam) (copts : compressionOptions) (seen : List Str)
      (p : ExtensionParam),
      p ∈ params →
      p.name ≠ bytes "client_no_context_takeover" →
      p.name ≠ bytes "server_no_context_takeover" →
      p.name ≠ bytes "client_max_window_bits" →
      p.name ≠ bytes "server_max_window_bits" →
      acceptDeflateAux copts seen params = none := by
  intro params
  induction params with
  | nil => intro _ _ _ hmem _ _ _ _; cases hmem
  | cons q rest ih =>
    intro copts seen p hmem h1 h2 h3 h4
    rcases List.mem_cons.mp hmem with heq | hmem'
    · subst heq
      unfold acceptDeflateAux
      split
      · rfl
      · simp only [beq_eq_false_iff_ne.mpr h1, beq_eq_false_iff_ne.mpr h2,
          beq_eq_false_iff_ne.mpr h3, beq_eq_false_iff_ne.mpr h4]
        norm_num
    · unfold acceptDeflateAux
      split
      · rfl
      · split
        · split
          · exact ih _ _ p hmem' h1 h2 h3 h4
          · rfl
        · split
          · split
            · exact ih _ _ p hmem' h1 h2 h3 h4
            · rfl
          · split
            · split
              · exact ih _ _ p hmem' h1 h2 h3 h4
              · rfl
            · split
              · split
                · exact ih _ _ p hmem' h1 h2 h3 h4
                · rfl
              · rfl

/-- With compression disabled nothing is ever selected. -/
theorem selectDeflate_disabled (exts : Extensions) :
    selectDeflate .CompressionDisabled exts = none := by
  cases exts with
  | nil => rfl
  | cons e rest => rfl

/-- Fallback step: a rejected permessage-deflate candidate is skipped and
negotiation continues with the remaining offers. -/
theorem selectDeflate_fallback (mode : CompressionMode) (e : Extension) (rest : Extensions)
    (hname : e.name = bytes "permessage-deflate")
    (hrej : acceptDeflate mode e.params = none) :
    selectDeflate mode (e :: rest) = selectDeflate mode rest := by
  by_cases hd : mode = .CompressionDisabled
  · subst hd
    rw [selectDeflate_disabled, selectDeflate_disabled]
  · conv_lhs => unfold selectDeflate
    rw [if_neg (by simpa using hd), if_pos (by simpa using hname), hrej]

/-- If every permessage-deflate candidate is rejected, negotiation returns
no options (and no error). -/
theorem selectDeflate_none_of_all_rejected :
    ∀ (mode : CompressionMode) (exts : Extensions),
      (∀ e ∈ exts, e.name = bytes "permessage-deflate" → acceptDeflate mode e.params = none) →
      selectDeflate mode exts = none := by
  intro mode exts
  induction exts with
  | nil => intro _; rfl
  | cons e rest ih =>
    intro hall
    by_cases hd : mode = .CompressionDisabled
    · subst hd; exact selectDeflate_disabled _
    · by_cases hname : e.name = bytes "permessage-deflate"
      · rw [selectDeflate_fallback mode e rest hname (hall e (by simp) hname)]
        exact ih (fun x hx hn => hall x (by simp [hx]) hn)
      · unfold selectDeflate
        rw [if_neg (by simpa using hd), if_neg (by simpa using hname)]
        exact ih (fun x hx hn => hall x (by simp [hx]) hn)

/-- C5: server-side permessage-deflate negotiation accepts a
server_max_window_bits parameter only when its value is exactly 15: any
other value (including an empty value) rejects the instance, and the
parsed offer permessage-deflate; server_max_window_bits=16 under mode
ContextTakeover yields no acceptance. -/
theorem c5_server_max_window_bits :
    ParseExtensions [(extensionsKey, bytes "permessage-deflate; server_max_window_bits=16")] =
      .ok [⟨bytes "permessage-deflate", [⟨bytes "server_max_window_bits", bytes "16"⟩]⟩] ∧
    selectDeflate .CompressionContextTakeover
      [⟨bytes "permessage-deflate", [⟨bytes "server_max_window_bits", bytes "16"⟩]⟩] = none ∧
    (∀ (mode : CompressionMode) (params : List ExtensionParam) (v : Str),
      (⟨bytes "server_max_window_bits", v⟩ : ExtensionParam) ∈ params → v ≠ bytes "15" →
      acceptDeflate mode params = none) ∧
    acceptDeflate .CompressionContextTakeover
      [⟨bytes "server_max_window_bits", bytes "15"⟩] = some ⟨false, false⟩ := by
  refine ⟨by rfl, by rfl, ?_, by rfl⟩
  intro mode params v hmem hne
  exact acceptDeflateAux_smwb params mode.opts [] v hmem hne

/-- C6: deflate offers are scanned in header order with fallback: an
instance with an unknown or duplicated parameter is rejected and the next
candidate is tried, no accepted candidate means no compression (not an
error), and the offer permessage-deflate; meow, permessage-deflate;
client_max_window_bits under mode NoContextTakeover accepts the second
candidate with both no-context-takeover flags true. -/
theorem c6_deflate_fallback :
    ParseExtensions
        [(extensionsKey,
          bytes "permessage-deflate; meow, permessage-deflate; client_max_window_bits")] =
      .ok [⟨bytes "permessage-deflate", [⟨bytes "meow", []⟩]⟩,
           ⟨bytes "permessage-deflate", [⟨bytes "client_max_window_bits", []⟩]⟩] ∧
    selectDeflate .CompressionNoContextTakeover
      [⟨bytes "permessage-deflate", [⟨bytes "meow", []⟩]⟩,
       ⟨bytes "permessage-deflate", [⟨bytes "client_max_window_bits", []⟩]⟩] =
      some ⟨true, true⟩ ∧
    (∀ (mode : CompressionMode) (params : List ExtensionParam) (p : ExtensionParam),
      p ∈ params →
      p.name ≠ bytes "client_no_context_takeover" →
      p.name ≠ bytes "server_no_context_takeover" →
      p.name ≠ bytes "client_max_window_bits" →
      p.name ≠ bytes "server_max_window_bits" →
      acceptDeflate mode params = none) ∧
    (∀ (mode : CompressionMode) (params : List ExtensionParam),
      ¬(params.map ExtensionParam.name).Nodup → acceptDeflate mode params = none) ∧
    (∀ (mode : CompressionMode) (e : Extension) (rest : Extensions),
      e.name = bytes "permessage-deflate" → acceptDeflate mode e.params = none →
      selectDeflate mode (e :: rest) = selectDeflate mode rest) ∧
    (∀ (mode : CompressionMode) (exts : Extensions),
      (∀ e ∈ exts, e.name = bytes "permessage-deflate" →
        acceptDeflate mode e.params = none) →
      selectDeflate mode exts = none) := by
  refine ⟨by rfl, by rfl, ?_, ?_, ?_, ?_⟩
  · intro mode params p hmem h1 h2 h3 h4
    exact acceptDeflateAux_unknown params mode.opts [] p hmem h1 h2 h3 h4
  · intro mode params hnd
    exact acceptDeflateAux_dup params mode.opts [] (Or.inr hnd)
  · intro mode e rest hname hrej
    exact selectDeflate_fallback mode e rest hname hrej
  · intro mode exts hall
    exact selectDeflate_none_of_all_rejected mode exts hall

/-- Success condition of the VerifyContainsToken value loop: some remaining
value parses to a token list containing the token, whatever parse error has
been recorded. -/
theorem vctLoop_ok_iff (token : Str) :
    ∀ (values : List Str) (firstErr : Option String),
      vctLoop token values firstErr = .ok () ↔
        ∃ v ts, v ∈ values ∧ ParseTokenList v = .ok ts ∧ ContainsToken ts token = true := by
  intro values
  induction values with
  | nil =>
    intro firstErr
    cases firstErr <;> simp [vctLoop]
  | cons v rest ih =>
    intro firstErr
    unfold vctLoop
    split
    · rename_i e hp
      rw [ih]
      constructor
      · rintro ⟨w, ws, hw, hok, hcw⟩
        exact ⟨w, ws, by simp [hw], hok, hcw⟩
      · rintro ⟨w, ws, hw, hok, hcw⟩
        rcases List.mem_cons.mp hw with heq | hmem
        · subst heq; rw [hp] at hok; cases hok
        · exact ⟨w, ws, hmem, hok, hcw⟩
    · rename_i ts hp
      by_cases hct : ContainsToken ts token = true
      · rw [if_pos hct]
        simp only [true_iff]
        exact ⟨v, ts, by simp, hp, hct⟩
      · rw [if_neg hct, ih]
        constructor
        · rintro ⟨w, ws, hw, hok, hcw⟩
          exact ⟨w, ws, by simp [hw], hok, hcw⟩
        · rintro ⟨w, ws, hw, hok, hcw⟩
          rcases List.mem_cons.mp hw with heq | hmem
          · subst heq
            rw [hp] at hok
            cases hok
            exact absurd hcw hct
          · exact ⟨w, ws, hmem, hok, hcw⟩

/-- Success condition of VerifyContainsToken: some value of the header
parses to a token list containing the case-insensitive token. -/
theorem verifyContainsToken_ok_iff (h : Header) (key token : Str) :
    VerifyContainsToken h key token = .ok () ↔
      ∃ v ts, v ∈ headerValues h key ∧ ParseTokenList v = .ok ts ∧
        ContainsToken ts token = true := by
  unfold VerifyContainsToken
  rcases hv : headerValues h key with _ | ⟨v, rest⟩
  · simp
  · split
    · rename_i hp
      exact absurd hp (by simp)
    · rename_i w ws hp
      injection hp with h1 h2
      subst h1
      subst h2
      split
      · rename_i e hp
        rw [vctLoop_ok_iff]
        constructor
        · rintro ⟨w, ws, hw, hok, hcw⟩
          exact ⟨w, ws, by simp [hw], hok, hcw⟩
        · rintro ⟨w, ws, hw, hok, hcw⟩
          rcases List.mem_cons.mp hw with heq | hmem
          · subst heq; rw [hp] at hok; cases hok
          · exact ⟨w, ws, hmem, hok, hcw⟩
      · rename_i ts hp
        by_cases hct : ContainsToken ts token = true
        · rw [if_pos hct]
          simp only [true_iff]
          exact ⟨v, ts, by simp, hp, hct⟩
        · rw [if_neg hct, vctLoop_ok_iff]
          constructor
          · rintro ⟨w, ws, hw, hok, hcw⟩
            exact ⟨w, ws, by simp [hw], hok, hcw⟩
          · rintro ⟨w, ws, hw, hok, hcw⟩
            rcases List.mem_cons.mp hw with heq | hmem
            · subst heq
              rw [hp] at hok
              cases hok
              exact absurd hcw hct
            · exact ⟨w, ws, hmem, hok, hcw⟩

/-- C2 (amended): the client-side Connection check succeeds exactly when
some Connection header value parses to a token list containing the
case-insensitive Upgrade token, so a value such as keep-alive, Upgrade
passes rather than failing. -/
theorem c2_connection_contains :
    (∀ h : Header, VerifyConnection h = .ok () ↔
      ∃ v ts, v ∈ headerValues h (bytes "Connection") ∧ ParseTokenList v = .ok ts ∧
        ContainsToken ts (bytes "Upgrade") = true) ∧
    VerifyConnection [(bytes "Connection", bytes "keep-alive, Upgrade")] = .ok () :=
  ⟨fun h => verifyContainsToken_ok_iff h (bytes "Connection") (bytes "Upgrade"), by rfl⟩

set_option maxRecDepth 40000 in
/-- C2 counterexample: a handshake response whose Connection header value is
keep-alive, Upgrade (two tokens, merely containing Upgrade) passes the
whole client-side verification, refuting the exact-single-token reading. -/
theorem c2_connection_counterexample :
    ParseTokenList (bytes "keep-alive, Upgrade") =
      .ok [bytes "keep-alive", bytes "Upgrade"] ∧
    verifyServerResponse [] none (bytes "the sample nonce")
      { statusCode := 101,
        header := [(bytes "Connection", bytes "keep-alive, Upgrade"),
                   (bytes "Upgrade", bytes "websocket"),
                   (bytes "Sec-WebSocket-Accept", bytes "s3pPLMBiTxaQ9kYGzzhZRbK+xOo=")] } =
      .ok none :=
  ⟨by rfl, by rfl⟩

/-- C9: origin authorization authorizes an absent Origin header and a
case-insensitively equal origin host unconditionally; a differing origin
host is matched against the caller's case-insensitive glob patterns, so for
request host example.com and origin https://two.example.com the pattern
list with *.example.com authorizes and the list with exam3.com rejects. -/
theorem c9_origin_authorization :
    authenticateOrigin
      { protoMajor := 1, protoMinor := 1, method := bytes "GET", host := bytes "example.com",
        header := [(bytes "Origin", bytes "https://two.example.com")] }
      [bytes "*.example.com"] = .ok () ∧
    authenticateOrigin
      { protoMajor := 1, protoMinor := 1, method := bytes "GET", host := bytes "example.com",
        header := [(bytes "Origin", bytes "https://two.example.com")] }
      [bytes "exam3.com"] = .error "request Origin is not authorized for Host" ∧
    (∀ (r : Request) (patterns : List Str),
      headerGet r.header (bytes "Origin") = [] → authenticateOrigin r patterns = .ok ()) ∧
    (∀ (r : Request) (patterns : List Str) (oh : Str),
      urlHost (headerGet r.header (bytes "Origin")) = some oh →
      EqualFold r.host oh = true → authenticateOrigin r patterns = .ok ()) := by
  refine ⟨by rfl, by rfl, ?_, ?_⟩
  · intro r patterns ho
    unfold authenticateOrigin
    simp [ho]
  · intro r patterns oh hu he
    unfold authenticateOrigin
    by_cases hor : headerGet r.header (bytes "Origin") = []
    · simp [hor]
    · have hne : (headerGet r.header (bytes "Origin") == ([] : Str)) = false :=
        beq_eq_false_iff_ne.mpr hor
      simp only [hne, Bool.false_eq_true, if_neg, not_false_iff, hu, he, if_pos]
